import Mathlib

/-!
Shallow embedding of the procedural rig classification and pose-synthesis
engine of `src/components/Viewer3D.tsx` (a browser 3D character viewer).
Numbers are embedded as rationals (`ℚ`); the JavaScript `Math.sin` / `Math.cos`
primitives are abstracted as function parameters where a definition needs them.
-/

namespace Viewer3D

/-- Pose archetypes, from `POSE_OPTIONS` in `src/lib/urlState.ts`:
`["static", "idle", "seizure"]`. -/
inductive PoseName where
  | static
  | idle
  | seizure
deriving DecidableEq, Repr

/-- Embeds the `PoseState` record of `Viewer3D.tsx` (`from`, `to_`, `blend`,
`time`); `from` is a Lean keyword, hence the field name `from_`. -/
structure PoseState where
  from_ : PoseName
  to_ : PoseName
  blend : ℚ
  time : ℚ
deriving DecidableEq, Repr

/-- Embeds `updatePoseState(state, delta, speed, autoplay)`:
`if (autoplay) state.time += delta * speed;`
`if (state.blend < 1) state.blend = Math.min(1, state.blend + delta * 3);`
`else state.from = state.to_;`. -/
def updatePoseState (state : PoseState) (delta speed : ℚ) (autoplay : Bool) :
    PoseState :=
  let state :=
    if autoplay then { state with time := state.time + delta * speed } else state
  if state.blend < 1 then
    { state with blend := min 1 (state.blend + delta * 3) }
  else
    { state with from_ := state.to_ }

/-- Runs `updatePoseState` over a sequence of per-frame delta times, as the
render loop does across successive frames. -/
def advancePoseState (speed : ℚ) (autoplay : Bool) :
    PoseState → List ℚ → PoseState
  | s, [] => s
  | s, d :: ds => advancePoseState speed autoplay (updatePoseState s d speed autoplay) ds

/-- Embeds the 15-field `PoseSignals` record of `Viewer3D.tsx`.  The source's
`lean` field is rendered `leanAmt` here; all other field names follow the
source. -/
structure PoseSignals where
  bob : ℚ
  sway : ℚ
  leanAmt : ℚ
  twist : ℚ
  stride : ℚ
  armSwing : ℚ
  spineBend : ℚ
  spineTwist : ℚ
  headNod : ℚ
  headTilt : ℚ
  slump : ℚ
  shake : ℚ
  armDrop : ℚ
  legBend : ℚ
  forward : ℚ
deriving DecidableEq, Repr

/-- Embeds `THREE.MathUtils.lerp(x, y, t) = (1 - t) * x + t * y`. -/
def lerp (x y t : ℚ) : ℚ := (1 - t) * x + t * y

/-- Embeds `blendSignals(a, b, t)`: field-wise `lerp` of two signal vectors. -/
def blendSignals (a b : PoseSignals) (t : ℚ) : PoseSignals where
  bob := lerp a.bob b.bob t
  sway := lerp a.sway b.sway t
  leanAmt := lerp a.leanAmt b.leanAmt t
  twist := lerp a.twist b.twist t
  stride := lerp a.stride b.stride t
  armSwing := lerp a.armSwing b.armSwing t
  spineBend := lerp a.spineBend b.spineBend t
  spineTwist := lerp a.spineTwist b.spineTwist t
  headNod := lerp a.headNod b.headNod t
  headTilt := lerp a.headTilt b.headTilt t
  slump := lerp a.slump b.slump t
  shake := lerp a.shake b.shake t
  armDrop := lerp a.armDrop b.armDrop t
  legBend := lerp a.legBend b.legBend t
  forward := lerp a.forward b.forward t

theorem updatePoseState_blend_eq (s : PoseState) (d sp : ℚ) (a : Bool)
    (h : s.blend < 1) :
    (updatePoseState s d sp a).blend = min 1 (s.blend + d * 3) := by
  cases a <;> simp [updatePoseState, h]

theorem updatePoseState_blend_settled (s : PoseState) (d sp : ℚ) (a : Bool)
    (h : ¬ s.blend < 1) :
    (updatePoseState s d sp a).blend = s.blend := by
  cases a <;> simp [updatePoseState, h]

theorem advancePoseState_blend_stays_one (sp : ℚ) (a : Bool) :
    ∀ (ds : List ℚ) (s : PoseState), s.blend = 1 →
      (advancePoseState sp a s ds).blend = 1 := by
  intro ds
  induction ds with
  | nil => intro s h; simpa [advancePoseState] using h
  | cons d ds ih =>
    intro s h
    have h1 : ¬ s.blend < 1 := by rw [h]; exact lt_irrefl 1
    simp only [advancePoseState]
    exact ih _ (by rw [updatePoseState_blend_settled s d sp a h1, h])

theorem advancePoseState_blend_reaches_one (sp : ℚ) (a : Bool) :
    ∀ (ds : List ℚ) (s : PoseState), s.blend ≤ 1 →
      1 ≤ s.blend + 3 * ds.sum →
      (advancePoseState sp a s ds).blend = 1 := by
  intro ds
  induction ds with
  | nil =>
    intro s h1 h2
    simp only [List.sum_nil, mul_zero, add_zero] at h2
    simpa [advancePoseState] using le_antisymm h1 h2
  | cons d ds ih =>
    intro s h1 h2
    simp only [advancePoseState]
    by_cases hb : s.blend < 1
    · have hval := updatePoseState_blend_eq s d sp a hb
      by_cases hone : 1 ≤ s.blend + d * 3
      · have : (updatePoseState s d sp a).blend = 1 := by
          rw [hval, min_eq_left hone]
        exact advancePoseState_blend_stays_one sp a ds _ this
      · apply ih
        · rw [hval]; exact min_le_left _ _
        · rw [hval, min_eq_right (le_of_not_le hone)]
          simp only [List.sum_cons] at h2
          linarith
    · have hone : s.blend = 1 := le_antisymm h1 (le_of_not_lt hb)
      exact advancePoseState_blend_stays_one sp a ds _
        (by rw [updatePoseState_blend_settled s d sp a hb, hone])

/-- C3: starting from any pose state with `blend < 1` (and `blend ≥ 0`, the
state machine's invariant), advancing by any sequence of positive per-frame
deltas whose sum is at least `1 / blendRate = 1/3`, followed by one further
advance, lands in the settled state: `blend = 1` and `from = to`. -/
theorem poseTransition_converges (s : PoseState) (sp : ℚ) (a : Bool)
    (ds : List ℚ) (d : ℚ)
    (hb0 : 0 ≤ s.blend) (hb1 : s.blend < 1)
    (hpos : ∀ x ∈ ds, 0 < x) (hsum : 1 / 3 ≤ ds.sum) (hd : 0 < d) :
    (updatePoseState (advancePoseState sp a s ds) d sp a).blend = 1 ∧
    (updatePoseState (advancePoseState sp a s ds) d sp a).from_ =
      (updatePoseState (advancePoseState sp a s ds) d sp a).to_ := by
  have h1 : (advancePoseState sp a s ds).blend = 1 :=
    advancePoseState_blend_reaches_one sp a ds s (le_of_lt hb1) (by linarith)
  have h2 : ¬ (advancePoseState sp a s ds).blend < 1 := by
    rw [h1]; exact lt_irrefl 1
  refine ⟨by rw [updatePoseState_blend_settled _ d sp a h2, h1], ?_⟩
  cases a <;> simp [updatePoseState, h2]

theorem poseTransition_converges_witness :
    ((0 : ℚ) ≤ 0 ∧ (0 : ℚ) < 1 ∧ (∀ x ∈ [(1 : ℚ) / 3], 0 < x) ∧
      (1 : ℚ) / 3 ≤ [(1 : ℚ) / 3].sum ∧ (0 : ℚ) < 1 / 100) ∧
    (updatePoseState
        (advancePoseState 1 true ⟨.static, .idle, 0, 0⟩ [1 / 3]) (1 / 100) 1
        true).blend = 1 ∧
    (updatePoseState
        (advancePoseState 1 true ⟨.static, .idle, 0, 0⟩ [1 / 3]) (1 / 100) 1
        true).from_ =
      (updatePoseState
        (advancePoseState 1 true ⟨.static, .idle, 0, 0⟩ [1 / 3]) (1 / 100) 1
        true).to_ :=
  ⟨⟨le_refl 0, by norm_num, by simp, by simp, by norm_num⟩,
    poseTransition_converges ⟨.static, .idle, 0, 0⟩ 1 true [1 / 3] (1 / 100)
      (le_refl 0) (by norm_num) (by simp) (by simp) (by norm_num)⟩

/-- C4: the per-frame blend advance never reads the speed multiplier — two runs
of `updatePoseState` that differ only in `speed` produce the same `blend`; on
states respecting the `blend ∈ [0,1]` invariant and nonnegative frame deltas
the new blend is `min 1 (blend + delta * 3)`; and `time` advances by
`delta * speed` exactly when `autoplay` is true. -/
theorem updatePoseState_speed_independent (s : PoseState) (d sp1 sp2 : ℚ)
    (a : Bool) :
    (updatePoseState s d sp1 a).blend = (updatePoseState s d sp2 a).blend ∧
    (updatePoseState s d sp1 a).time = s.time + (if a then d * sp1 else 0) ∧
    (s.blend ≤ 1 → 0 ≤ d →
      (updatePoseState s d sp1 a).blend = min 1 (s.blend + d * 3)) := by
  refine ⟨?_, ?_, ?_⟩
  · cases a <;> by_cases hb : s.blend < 1 <;> simp [updatePoseState, hb]
  · cases a <;> by_cases hb : s.blend < 1 <;> simp [updatePoseState, hb]
  · intro h1 hd
    by_cases hb : s.blend < 1
    · exact updatePoseState_blend_eq s d sp1 a hb
    · rw [updatePoseState_blend_settled s d sp1 a hb]
      have hone : s.blend = 1 := le_antisymm h1 (le_of_not_lt hb)
      rw [hone, min_eq_left (by linarith)]

theorem updatePoseState_speed_independent_witness :
    ((1 : ℚ) / 2 ≤ 1 ∧ (0 : ℚ) ≤ 1 / 60) ∧
    (updatePoseState ⟨.static, .idle, 1 / 2, 0⟩ (1 / 60) 2 true).blend =
      (updatePoseState ⟨.static, .idle, 1 / 2, 0⟩ (1 / 60) 5 true).blend ∧
    (updatePoseState ⟨.static, .idle, 1 / 2, 0⟩ (1 / 60) 2 true).blend =
      min 1 (1 / 2 + (1 / 60) * 3) :=
  ⟨⟨by norm_num, by norm_num⟩,
    (updatePoseState_speed_independent ⟨.static, .idle, 1 / 2, 0⟩ (1 / 60) 2 5
      true).1,
    (updatePoseState_speed_independent ⟨.static, .idle, 1 / 2, 0⟩ (1 / 60) 2 5
      true).2.2 (by norm_num) (by norm_num)⟩

/-- C10: the blend advance is independent of the `autoplay` flag — for any
state with `blend < 1` the new blend is `min 1 (blend + delta * 3)` under
either flag value (strictly increasing for positive deltas), while
`elapsedTime` is frozen exactly when `autoplay` is false. -/
theorem updatePoseState_blend_ignores_autoplay (s : PoseState) (d sp : ℚ)
    (a : Bool) :
    (updatePoseState s d sp true).blend = (updatePoseState s d sp false).blend ∧
    (s.blend < 1 → (updatePoseState s d sp a).blend = min 1 (s.blend + d * 3)) ∧
    (s.blend < 1 → 0 < d → s.blend < (updatePoseState s d sp a).blend) ∧
    (updatePoseState s d sp false).time = s.time ∧
    (updatePoseState s d sp true).time = s.time + d * sp := by
  refine ⟨?_, ?_, ?_, ?_, ?_⟩
  · by_cases hb : s.blend < 1 <;> simp [updatePoseState, hb]
  · intro hb; exact updatePoseState_blend_eq s d sp a hb
  · intro hb hd
    rw [updatePoseState_blend_eq s d sp a hb]
    exact lt_min hb (by linarith)
  · by_cases hb : s.blend < 1 <;> simp [updatePoseState, hb]
  · by_cases hb : s.blend < 1 <;> simp [updatePoseState, hb]

theorem updatePoseState_blend_ignores_autoplay_witness :
    ((1 : ℚ) / 4 < 1 ∧ (0 : ℚ) < 1 / 60) ∧
    (updatePoseState ⟨.static, .idle, 1 / 4, 7⟩ (1 / 60) 2 false).blend =
      min 1 (1 / 4 + (1 / 60) * 3) ∧
    (1 : ℚ) / 4 <
      (updatePoseState ⟨.static, .idle, 1 / 4, 7⟩ (1 / 60) 2 false).blend ∧
    (updatePoseState ⟨.static, .idle, 1 / 4, 7⟩ (1 / 60) 2 false).time = 7 :=
  ⟨⟨by norm_num, by norm_num⟩,
    (updatePoseState_blend_ignores_autoplay ⟨.static, .idle, 1 / 4, 7⟩ (1 / 60)
      2 false).2.1 (by norm_num),
    (updatePoseState_blend_ignores_autoplay ⟨.static, .idle, 1 / 4, 7⟩ (1 / 60)
      2 false).2.2.1 (by norm_num) (by norm_num),
    (updatePoseState_blend_ignores_autoplay ⟨.static, .idle, 1 / 4, 7⟩ (1 / 60)
      2 false).2.2.2.1⟩

/-- C6: blend boundary laws — `blendSignals a b 0 = a` and
`blendSignals a b 1 = b`, as full structure equalities, so every one of the
fifteen signal fields is interpolated (none is passed through from one side
only). -/
theorem blendSignals_boundary (a b : PoseSignals) :
    blendSignals a b 0 = a ∧ blendSignals a b 1 = b := by
  constructor <;> (cases a; cases b; simp [blendSignals, lerp])

/-- Rational 3-vector standing for `THREE.Vector3`. -/
structure Vec3 where
  x : ℚ
  y : ℚ
  z : ℚ
deriving DecidableEq, Repr

/-- Rational quaternion standing for `THREE.Quaternion` (fields `x y z w`). -/
structure Quat where
  qx : ℚ
  qy : ℚ
  qz : ℚ
  qw : ℚ
deriving DecidableEq, Repr

/-- Embeds `THREE.Quaternion.multiplyQuaternions(a, b)` (Hamilton product,
three.js component formulas). -/
def quatMul (a b : Quat) : Quat where
  qx := a.qx * b.qw + a.qw * b.qx + a.qy * b.qz - a.qz * b.qy
  qy := a.qy * b.qw + a.qw * b.qy + a.qz * b.qx - a.qx * b.qz
  qz := a.qz * b.qw + a.qw * b.qz + a.qx * b.qy - a.qy * b.qx
  qw := a.qw * b.qw - a.qx * b.qx - a.qy * b.qy - a.qz * b.qz

/-- Embeds `THREE.Quaternion.setFromEuler(euler)` for the default XYZ order,
with `Math.sin` / `Math.cos` abstracted as the parameters `sn` / `cs`. -/
def quatFromEulerXYZ (sn cs : ℚ → ℚ) (x y z : ℚ) : Quat :=
  let c1 := cs (x / 2)
  let c2 := cs (y / 2)
  let c3 := cs (z / 2)
  let s1 := sn (x / 2)
  let s2 := sn (y / 2)
  let s3 := sn (z / 2)
  { qx := s1 * c2 * c3 + c1 * s2 * s3
    qy := c1 * s2 * c3 - s1 * c2 * s3
    qz := c1 * c2 * s3 + s1 * s2 * c3
    qw := c1 * c2 * c3 - s1 * s2 * s3 }

/-- Embeds the `RigRestPose` record (`position`, `quaternion`, `scale`); it is
also the shape of a bone's live local transform, which the pose applicator
rewrites in place. -/
@[ext]
structure RigRestPose where
  position : Vec3
  quaternion : Quat
  scale : Vec3
deriving DecidableEq, Repr

/-- Embeds the `RigGroups` record.  Bones are identified by their `uuid`,
embedded as `ℕ`. -/
structure RigGroups where
  root : Option ℕ
  hips : Option ℕ
  spine : List ℕ
  head : Option ℕ
  jaw : List ℕ
  armL : List ℕ
  armR : List ℕ
  legL : List ℕ
  legR : List ℕ
deriving DecidableEq, Repr

/-- Embeds the `Rig` record: the bone list (uuids in traversal order), the
bind-pose map `rest` and depth map `depth` (JS `Map`s, embedded as association
lists keyed by uuid), and the classified groups. -/
structure Rig where
  bones : List ℕ
  rest : List (ℕ × RigRestPose)
  depth : List (ℕ × ℕ)
  groups : RigGroups
deriving DecidableEq, Repr

/-- One mutation performed by `applyPoseToRig` on the live bone map: a write of
a bone's local position, quaternion, or scale.  The applicator is embedded as
the list of writes it performs, executed in order over the bone-transform
state. -/
inductive PoseWrite where
  | wpos (id : ℕ) (v : Vec3)
  | wquat (id : ℕ) (q : Quat)
  | wscale (id : ℕ) (v : Vec3)
deriving DecidableEq, Repr

/-- Executes a single write on the bone-transform state (a map from bone uuid
to its live local transform). -/
def applyWrite (w : PoseWrite) (st : ℕ → RigRestPose) : ℕ → RigRestPose :=
  match w with
  | .wpos i v => fun j => if j = i then { st j with position := v } else st j
  | .wquat i q => fun j => if j = i then { st j with quaternion := q } else st j
  | .wscale i v => fun j => if j = i then { st j with scale := v } else st j

/-- Executes a list of writes in order. -/
def runWrites (ws : List PoseWrite) (st : ℕ → RigRestPose) : ℕ → RigRestPose :=
  ws.foldl (fun s w => applyWrite w s) st

/-- Writes of the reset pass of `applyPoseToRig`: for every bone of
`rig.bones`, copy the bind-pose position, quaternion and scale back onto the
bone (bones with no `rest` entry are skipped, as in the source's `if (!rest)
return`). -/
def resetWrites (rest : List (ℕ × RigRestPose)) (bones : List ℕ) :
    List PoseWrite :=
  bones.flatMap fun id =>
    match rest.lookup id with
    | none => []
    | some r => [.wpos id r.position, .wquat id r.quaternion, .wscale id r.scale]

/-- Writes of the root/hips pass of `applyPoseToRig` (`rig.groups.hips ??
rig.groups.root`): bind position displaced by bob/slump, sway and forward
drift, and bind rotation composed with an XYZ Euler delta. -/
def rootWrites (sn cs : ℚ → ℚ) (rig : Rig) (s : PoseSignals) : List PoseWrite :=
  match rig.groups.hips <|> rig.groups.root with
  | none => []
  | some root =>
    match rig.rest.lookup root with
    | none => []
    | some r =>
      let pos : Vec3 :=
        { x := r.position.x + s.sway
          y := r.position.y + s.bob - s.slump
          z := r.position.z + s.forward }
      let leanAngle := -s.leanAmt - s.slump * 0.6
      let yaw := s.twist + s.shake * 0.4
      let roll := s.sway * 1.4
      [.wpos root pos,
       .wquat root (quatMul r.quaternion (quatFromEulerXYZ sn cs leanAngle yaw roll))]

/-- Writes of the spine pass: per-index falloff `1 - (index / max 1 len) * 0.5`
scaling bend and twist, composed onto the bind rotation. -/
def spineWrites (sn cs : ℚ → ℚ) (rig : Rig) (s : PoseSignals) : List PoseWrite :=
  (rig.groups.spine.enum).flatMap fun p =>
    match rig.rest.lookup p.2 with
    | none => []
    | some r =>
      let falloff : ℚ :=
        1 - ((p.1 : ℚ) / max 1 (rig.groups.spine.length : ℚ)) * 0.5
      let bend := -s.spineBend * falloff - s.slump * 0.5 * falloff
      let twist := s.spineTwist * falloff + s.shake * 0.6 * falloff
      [.wquat p.2 (quatMul r.quaternion (quatFromEulerXYZ sn cs bend twist 0))]

/-- Writes of the head pass: nod, tilt and yaw with the shake ("laugh boost")
coupling, composed onto the bind rotation. -/
def headWrites (sn cs : ℚ → ℚ) (rig : Rig) (s : PoseSignals) : List PoseWrite :=
  match rig.groups.head with
  | none => []
  | some head =>
    match rig.rest.lookup head with
    | none => []
    | some r =>
      let laughBoost := s.shake * 0.8
      let nod := -s.headNod - s.slump * 0.4 + laughBoost
      let tilt := s.headTilt + s.shake * 0.7
      let yaw := s.shake * 0.3 + laughBoost * 0.4
      [.wquat head (quatMul r.quaternion (quatFromEulerXYZ sn cs nod yaw tilt))]

/-- Writes of the jaw pass: pure X-axis opening proportional to
`max 0 (shake + 0.6 * headNod) * 0.6` with per-index falloff. -/
def jawWrites (sn cs : ℚ → ℚ) (rig : Rig) (s : PoseSignals) : List PoseWrite :=
  if rig.groups.jaw.length > 0 then
    let jawOpen := max 0 (s.shake + s.headNod * 0.6) * 0.6
    (rig.groups.jaw.enum).flatMap fun p =>
      match rig.rest.lookup p.2 with
      | none => []
      | some r =>
        let falloff : ℚ := 1 - ((p.1 : ℚ) / (rig.groups.jaw.length : ℚ)) * 0.5
        [.wquat p.2 (quatMul r.quaternion
          (quatFromEulerXYZ sn cs (jawOpen * falloff) 0 0))]
  else []

/-- Writes of one limb chain (`applyLimb` in the source): per-index falloff
`1 - (index / max 1 count) * 0.6`, a swing-plus-drop bend on X, and a
side-signed drop fraction plus shake jitter on Z.  `sideLeft = true` stands
for the source's `side === "left"`. -/
def applyLimbWrites (sn cs : ℚ → ℚ) (rest : List (ℕ × RigRestPose))
    (shake : ℚ) (bones : List ℕ) (swing : ℚ) (sideLeft : Bool) (drop : ℚ) :
    List PoseWrite :=
  let count : ℚ := max 1 (bones.length : ℚ)
  let sideSign : ℚ := if sideLeft then 1 else -1
  (bones.enum).flatMap fun p =>
    match rest.lookup p.2 with
    | none => []
    | some r =>
      let falloff : ℚ := 1 - ((p.1 : ℚ) / count) * 0.6
      let swingX := swing * falloff + drop * falloff
      let roll := sideSign * drop * 0.4 * falloff
      let jitter := shake * 0.5 * falloff
      [.wquat p.2 (quatMul r.quaternion
        (quatFromEulerXYZ sn cs swingX 0 (roll + jitter)))]

/-- Writes of the four limb passes, in source order: left leg, right leg, left
arm, right arm. -/
def limbWrites (sn cs : ℚ → ℚ) (rig : Rig) (s : PoseSignals) : List PoseWrite :=
  let legSwing := s.stride
  let armSwing := s.armSwing
  applyLimbWrites sn cs rig.rest s.shake rig.groups.legL
      (legSwing + s.legBend) true 0 ++
    applyLimbWrites sn cs rig.rest s.shake rig.groups.legR
      (-legSwing + s.legBend) false 0 ++
    applyLimbWrites sn cs rig.rest s.shake rig.groups.armL
      (-armSwing) true s.armDrop ++
    applyLimbWrites sn cs rig.rest s.shake rig.groups.armR
      armSwing false s.armDrop

/-- Full write sequence of `applyPoseToRig`, in source order: reset pass, then
root/hips, spine, head, jaw and limb passes. -/
def poseWrites (sn cs : ℚ → ℚ) (rig : Rig) (s : PoseSignals) : List PoseWrite :=
  resetWrites rig.rest rig.bones ++ rootWrites sn cs rig s ++
    spineWrites sn cs rig s ++ headWrites sn cs rig s ++ jawWrites sn cs rig s ++
    limbWrites sn cs rig s

/-- Embeds `applyPoseToRig(rig, signals)` as a function on the bone-transform
state: execute, in order, every mutation the source performs. -/
def applyPoseToRig (sn cs : ℚ → ℚ) (rig : Rig) (s : PoseSignals)
    (st : ℕ → RigRestPose) : ℕ → RigRestPose :=
  runWrites (poseWrites sn cs rig s) st

theorem runWrites_nil (st : ℕ → RigRestPose) : runWrites [] st = st := rfl

theorem runWrites_cons (w : PoseWrite) (ws : List PoseWrite)
    (st : ℕ → RigRestPose) :
    runWrites (w :: ws) st = runWrites ws (applyWrite w st) := rfl

/-- Value of a bone's position after a write list runs, as a function of its
value `d` before. -/
def posAfter (ws : List PoseWrite) (i : ℕ) (d : Vec3) : Vec3 :=
  match ws with
  | [] => d
  | .wpos j v :: ws => posAfter ws i (if i = j then v else d)
  | .wquat _ _ :: ws => posAfter ws i d
  | .wscale _ _ :: ws => posAfter ws i d

/-- Value of a bone's quaternion after a write list runs. -/
def quatAfter (ws : List PoseWrite) (i : ℕ) (d : Quat) : Quat :=
  match ws with
  | [] => d
  | .wpos _ _ :: ws => quatAfter ws i d
  | .wquat j q :: ws => quatAfter ws i (if i = j then q else d)
  | .wscale _ _ :: ws => quatAfter ws i d

/-- Value of a bone's scale after a write list runs. -/
def scaleAfter (ws : List PoseWrite) (i : ℕ) (d : Vec3) : Vec3 :=
  match ws with
  | [] => d
  | .wpos _ _ :: ws => scaleAfter ws i d
  | .wquat _ _ :: ws => scaleAfter ws i d
  | .wscale j v :: ws => scaleAfter ws i (if i = j then v else d)

theorem runWrites_position (ws : List PoseWrite) :
    ∀ (st : ℕ → RigRestPose) (i : ℕ),
      (runWrites ws st i).position = posAfter ws i ((st i).position) := by
  induction ws with
  | nil => intro st i; rfl
  | cons w ws ih =>
    intro st i
    rw [runWrites_cons, ih]
    cases w with
    | wpos j v =>
      have h : ((applyWrite (.wpos j v) st) i).position =
          if i = j then v else (st i).position := by
        simp only [applyWrite]; by_cases h : i = j <;> simp [h]
      rw [h]; rfl
    | wquat j q =>
      have h : ((applyWrite (.wquat j q) st) i).position = (st i).position := by
        simp only [applyWrite]; by_cases h : i = j <;> simp [h]
      rw [h]; rfl
    | wscale j v =>
      have h : ((applyWrite (.wscale j v) st) i).position = (st i).position := by
        simp only [applyWrite]; by_cases h : i = j <;> simp [h]
      rw [h]; rfl

theorem runWrites_quaternion (ws : List PoseWrite) :
    ∀ (st : ℕ → RigRestPose) (i : ℕ),
      (runWrites ws st i).quaternion = quatAfter ws i ((st i).quaternion) := by
  induction ws with
  | nil => intro st i; rfl
  | cons w ws ih =>
    intro st i
    rw [runWrites_cons, ih]
    cases w with
    | wpos j v =>
      have h : ((applyWrite (.wpos j v) st) i).quaternion = (st i).quaternion := by
        simp only [applyWrite]; by_cases h : i = j <;> simp [h]
      rw [h]; rfl
    | wquat j q =>
      have h : ((applyWrite (.wquat j q) st) i).quaternion =
          if i = j then q else (st i).quaternion := by
        simp only [applyWrite]; by_cases h : i = j <;> simp [h]
      rw [h]; rfl
    | wscale j v =>
      have h : ((applyWrite (.wscale j v) st) i).quaternion = (st i).quaternion := by
        simp only [applyWrite]; by_cases h : i = j <;> simp [h]
      rw [h]; rfl

theorem runWrites_scale (ws : List PoseWrite) :
    ∀ (st : ℕ → RigRestPose) (i : ℕ),
      (runWrites ws st i).scale = scaleAfter ws i ((st i).scale) := by
  induction ws with
  | nil => intro st i; rfl
  | cons w ws ih =>
    intro st i
    rw [runWrites_cons, ih]
    cases w with
    | wpos j v =>
      have h : ((applyWrite (.wpos j v) st) i).scale = (st i).scale := by
        simp only [applyWrite]; by_cases h : i = j <;> simp [h]
      rw [h]; rfl
    | wquat j q =>
      have h : ((applyWrite (.wquat j q) st) i).scale = (st i).scale := by
        simp only [applyWrite]; by_cases h : i = j <;> simp [h]
      rw [h]; rfl
    | wscale j v =>
      have h : ((applyWrite (.wscale j v) st) i).scale =
          if i = j then v else (st i).scale := by
        simp only [applyWrite]; by_cases h : i = j <;> simp [h]
      rw [h]; rfl

/-- True when the write list contains a position write for bone `i`. -/
def writesPos (ws : List PoseWrite) (i : ℕ) : Bool :=
  ws.any fun w => match w with
    | .wpos j _ => i == j
    | _ => false

/-- True when the write list contains a quaternion write for bone `i`. -/
def writesQuat (ws : List PoseWrite) (i : ℕ) : Bool :=
  ws.any fun w => match w with
    | .wquat j _ => i == j
    | _ => false

/-- True when the write list contains a scale write for bone `i`. -/
def writesScale (ws : List PoseWrite) (i : ℕ) : Bool :=
  ws.any fun w => match w with
    | .wscale j _ => i == j
    | _ => false

theorem posAfter_of_not_writesPos :
    ∀ (ws : List PoseWrite) (i : ℕ) (d : Vec3), writesPos ws i = false →
      posAfter ws i d = d := by
  intro ws
  induction ws with
  | nil => intro i d _; rfl
  | cons w ws ih =>
    intro i d h
    simp only [writesPos, List.any_cons, Bool.or_eq_false_iff] at h
    cases w with
    | wpos j v =>
      have hij : ¬ i = j := by
        intro he; rw [he] at h; simp at h
      simp only [posAfter, if_neg hij]
      exact ih i d h.2
    | wquat j q => exact ih i d h.2
    | wscale j v => exact ih i d h.2

theorem posAfter_irrel :
    ∀ (ws : List PoseWrite) (i : ℕ) (d d' : Vec3), writesPos ws i = true →
      posAfter ws i d = posAfter ws i d' := by
  intro ws
  induction ws with
  | nil => intro i d d' h; simp [writesPos] at h
  | cons w ws ih =>
    intro i d d' h
    cases w with
    | wpos j v =>
      by_cases hij : i = j
      · simp [posAfter, hij]
      · simp only [writesPos, List.any_cons, Bool.or_eq_true] at h
        rcases h with h | h
        · exfalso; apply hij; simpa using h
        · simp only [posAfter, if_neg hij]
          exact ih i d d' h
    | wquat j q =>
      simp only [writesPos, List.any_cons, Bool.or_eq_true] at h
      rcases h with h | h
      · simp at h
      · exact ih i d d' h
    | wscale j v =>
      simp only [writesPos, List.any_cons, Bool.or_eq_true] at h
      rcases h with h | h
      · simp at h
      · exact ih i d d' h

theorem posAfter_idem (ws : List PoseWrite) (i : ℕ) (d : Vec3) :
    posAfter ws i (posAfter ws i d) = posAfter ws i d := by
  cases h : writesPos ws i
  · rw [posAfter_of_not_writesPos ws i d h]
    exact posAfter_of_not_writesPos ws i d h
  · exact posAfter_irrel ws i _ d h

theorem quatAfter_of_not_writesQuat :
    ∀ (ws : List PoseWrite) (i : ℕ) (d : Quat), writesQuat ws i = false →
      quatAfter ws i d = d := by
  intro ws
  induction ws with
  | nil => intro i d _; rfl
  | cons w ws ih =>
    intro i d h
    simp only [writesQuat, List.any_cons, Bool.or_eq_false_iff] at h
    cases w with
    | wpos j v => exact ih i d h.2
    | wquat j q =>
      have hij : ¬ i = j := by
        intro he; rw [he] at h; simp at h
      simp only [quatAfter, if_neg hij]
      exact ih i d h.2
    | wscale j v => exact ih i d h.2

theorem quatAfter_irrel :
    ∀ (ws : List PoseWrite) (i : ℕ) (d d' : Quat), writesQuat ws i = true →
      quatAfter ws i d = quatAfter ws i d' := by
  intro ws
  induction ws with
  | nil => intro i d d' h; simp [writesQuat] at h
  | cons w ws ih =>
    intro i d d' h
    cases w with
    | wpos j v =>
      simp only [writesQuat, List.any_cons, Bool.or_eq_true] at h
      rcases h with h | h
      · simp at h
      · exact ih i d d' h
    | wquat j q =>
      by_cases hij : i = j
      · simp [quatAfter, hij]
      · simp only [writesQuat, List.any_cons, Bool.or_eq_true] at h
        rcases h with h | h
        · exfalso; apply hij; simpa using h
        · simp only [quatAfter, if_neg hij]
          exact ih i d d' h
    | wscale j v =>
      simp only [writesQuat, List.any_cons, Bool.or_eq_true] at h
      rcases h with h | h
      · simp at h
      · exact ih i d d' h

theorem quatAfter_idem (ws : List PoseWrite) (i : ℕ) (d : Quat) :
    quatAfter ws i (quatAfter ws i d) = quatAfter ws i d := by
  cases h : writesQuat ws i
  · rw [quatAfter_of_not_writesQuat ws i d h]
    exact quatAfter_of_not_writesQuat ws i d h
  · exact quatAfter_irrel ws i _ d h

theorem scaleAfter_of_not_writesScale :
    ∀ (ws : List PoseWrite) (i : ℕ) (d : Vec3), writesScale ws i = false →
      scaleAfter ws i d = d := by
  intro ws
  induction ws with
  | nil => intro i d _; rfl
  | cons w ws ih =>
    intro i d h
    simp only [writesScale, List.any_cons, Bool.or_eq_false_iff] at h
    cases w with
    | wpos j v => exact ih i d h.2
    | wquat j q => exact ih i d h.2
    | wscale j v =>
      have hij : ¬ i = j := by
        intro he; rw [he] at h; simp at h
      simp only [scaleAfter, if_neg hij]
      exact ih i d h.2

theorem scaleAfter_irrel :
    ∀ (ws : List PoseWrite) (i : ℕ) (d d' : Vec3), writesScale ws i = true →
      scaleAfter ws i d = scaleAfter ws i d' := by
  intro ws
  induction ws with
  | nil => intro i d d' h; simp [writesScale] at h
  | cons w ws ih =>
    intro i d d' h
    cases w with
    | wpos j v =>
      simp only [writesScale, List.any_cons, Bool.or_eq_true] at h
      rcases h with h | h
      · simp at h
      · exact ih i d d' h
    | wquat j q =>
      simp only [writesScale, List.any_cons, Bool.or_eq_true] at h
      rcases h with h | h
      · simp at h
      · exact ih i d d' h
    | wscale j v =>
      by_cases hij : i = j
      · simp [scaleAfter, hij]
      · simp only [writesScale, List.any_cons, Bool.or_eq_true] at h
        rcases h with h | h
        · exfalso; apply hij; simpa using h
        · simp only [scaleAfter, if_neg hij]
          exact ih i d d' h

theorem scaleAfter_idem (ws : List PoseWrite) (i : ℕ) (d : Vec3) :
    scaleAfter ws i (scaleAfter ws i d) = scaleAfter ws i d := by
  cases h : writesScale ws i
  · rw [scaleAfter_of_not_writesScale ws i d h]
    exact scaleAfter_of_not_writesScale ws i d h
  · exact scaleAfter_irrel ws i _ d h

/-- C1: the pose applicator is idempotent — for every rig, every signal vector
and every starting bone-transform state, applying `applyPoseToRig` twice
yields exactly the state obtained by applying it once (every write the
applicator performs is computed from the captured bind pose and the signals,
never from the current bone transforms, so repeated calls cannot accumulate
drift). -/
theorem applyPoseToRig_idempotent (sn cs : ℚ → ℚ) (rig : Rig)
    (s : PoseSignals) (st : ℕ → RigRestPose) :
    applyPoseToRig sn cs rig s (applyPoseToRig sn cs rig s st) =
      applyPoseToRig sn cs rig s st := by
  funext i
  apply RigRestPose.ext
  · simp only [applyPoseToRig]
    rw [runWrites_position, runWrites_position, posAfter_idem]
  · simp only [applyPoseToRig]
    rw [runWrites_quaternion, runWrites_quaternion, quatAfter_idem]
  · simp only [applyPoseToRig]
    rw [runWrites_scale, runWrites_scale, scaleAfter_idem]

theorem scaleAfter_append :
    ∀ (ws1 ws2 : List PoseWrite) (i : ℕ) (d : Vec3),
      scaleAfter (ws1 ++ ws2) i d = scaleAfter ws2 i (scaleAfter ws1 i d) := by
  intro ws1
  induction ws1 with
  | nil => intro ws2 i d; rfl
  | cons w ws ih =>
    intro ws2 i d
    cases w with
    | wpos j v => simpa only [List.cons_append, scaleAfter] using ih ws2 i d
    | wquat j q => simpa only [List.cons_append, scaleAfter] using ih ws2 i d
    | wscale j v =>
      simp only [List.cons_append, scaleAfter]
      exact ih ws2 i _

theorem scaleAfter_of_no_scale_writes (ws : List PoseWrite)
    (h : ∀ w ∈ ws, ∀ j v, w ≠ .wscale j v) (i : ℕ) (d : Vec3) :
    scaleAfter ws i d = d := by
  apply scaleAfter_of_not_writesScale
  simp only [writesScale]
  rw [List.any_eq_false]
  intro w hw
  cases w with
  | wpos j v => simp
  | wquat j q => simp
  | wscale j v => exact absurd rfl (h _ hw j v)

theorem rootWrites_no_scale (sn cs : ℚ → ℚ) (rig : Rig) (s : PoseSignals) :
    ∀ w ∈ rootWrites sn cs rig s, ∀ j v, w ≠ .wscale j v := by
  intro w hw
  unfold rootWrites at hw
  split at hw
  · simp at hw
  · split at hw
    · simp at hw
    · simp only [List.mem_cons, List.not_mem_nil, or_false] at hw
      rcases hw with h | h <;> (subst h; intro j v; simp)

theorem headWrites_no_scale (sn cs : ℚ → ℚ) (rig : Rig) (s : PoseSignals) :
    ∀ w ∈ headWrites sn cs rig s, ∀ j v, w ≠ .wscale j v := by
  intro w hw
  unfold headWrites at hw
  split at hw
  · simp at hw
  · split at hw
    · simp at hw
    · simp only [List.mem_cons, List.not_mem_nil, or_false] at hw
      subst hw; intro j v; simp

theorem spineWrites_no_scale (sn cs : ℚ → ℚ) (rig : Rig) (s : PoseSignals) :
    ∀ w ∈ spineWrites sn cs rig s, ∀ j v, w ≠ .wscale j v := by
  intro w hw
  unfold spineWrites at hw
  rw [List.mem_flatMap] at hw
  obtain ⟨p, _, hw⟩ := hw
  split at hw
  · simp at hw
  · simp only [List.mem_cons, List.not_mem_nil, or_false] at hw
    subst hw; intro j v; simp

theorem jawWrites_no_scale (sn cs : ℚ → ℚ) (rig : Rig) (s : PoseSignals) :
    ∀ w ∈ jawWrites sn cs rig s, ∀ j v, w ≠ .wscale j v := by
  intro w hw
  unfold jawWrites at hw
  split at hw
  · rw [List.mem_flatMap] at hw
    obtain ⟨p, _, hw⟩ := hw
    split at hw
    · simp at hw
    · simp only [List.mem_cons, List.not_mem_nil, or_false] at hw
      subst hw; intro j v; simp
  · simp at hw

theorem applyLimbWrites_no_scale (sn cs : ℚ → ℚ)
    (rest : List (ℕ × RigRestPose)) (shake : ℚ) (bones : List ℕ) (swing : ℚ)
    (sideLeft : Bool) (drop : ℚ) :
    ∀ w ∈ applyLimbWrites sn cs rest shake bones swing sideLeft drop,
      ∀ j v, w ≠ .wscale j v := by
  intro w hw
  unfold applyLimbWrites at hw
  rw [List.mem_flatMap] at hw
  obtain ⟨p, _, hw⟩ := hw
  split at hw
  · simp at hw
  · simp only [List.mem_cons, List.not_mem_nil, or_false] at hw
    subst hw; intro j v; simp

theorem limbWrites_no_scale (sn cs : ℚ → ℚ) (rig : Rig) (s : PoseSignals) :
    ∀ w ∈ limbWrites sn cs rig s, ∀ j v, w ≠ .wscale j v := by
  intro w hw
  unfold limbWrites at hw
  simp only [List.mem_append] at hw
  rcases hw with ((hw | hw) | hw) | hw
  · exact applyLimbWrites_no_scale _ _ _ _ _ _ _ _ w hw
  · exact applyLimbWrites_no_scale _ _ _ _ _ _ _ _ w hw
  · exact applyLimbWrites_no_scale _ _ _ _ _ _ _ _ w hw
  · exact applyLimbWrites_no_scale _ _ _ _ _ _ _ _ w hw

theorem scaleAfter_resetWrites (rest : List (ℕ × RigRestPose)) :
    ∀ (bones : List ℕ) (i : ℕ) (d : Vec3),
      scaleAfter (resetWrites rest bones) i d =
        match rest.lookup i with
        | some r => if i ∈ bones then r.scale else d
        | none => d := by
  intro bones
  induction bones with
  | nil =>
    intro i d
    cases h : rest.lookup i <;> simp [resetWrites, scaleAfter]
  | cons b bs ih =>
    intro i d
    have hsplit : resetWrites rest (b :: bs) =
        (match rest.lookup b with
          | none => []
          | some r =>
            [.wpos b r.position, .wquat b r.quaternion, .wscale b r.scale]) ++
          resetWrites rest bs := by
      simp [resetWrites]
    rw [hsplit, scaleAfter_append]
    by_cases hib : i = b
    · subst hib
      cases h : rest.lookup i with
      | none => simp [scaleAfter, ih, h]
      | some r => simp [scaleAfter, ih, h]
    · cases h : rest.lookup b with
      | none =>
        simp only [scaleAfter, ih]
        cases h2 : rest.lookup i with
        | none => rfl
        | some r2 => simp [List.mem_cons, hib]
      | some r =>
        simp only [scaleAfter, if_neg hib, ih]
        cases h2 : rest.lookup i with
        | none => rfl
        | some r2 => simp [List.mem_cons, hib]

theorem applyPoseToRig_scale_key (sn cs : ℚ → ℚ) (rig : Rig) (s : PoseSignals)
    (st : ℕ → RigRestPose) (i : ℕ) :
    (applyPoseToRig sn cs rig s st i).scale =
      scaleAfter (resetWrites rig.rest rig.bones) i ((st i).scale) := by
  rw [applyPoseToRig, runWrites_scale, poseWrites,
    scaleAfter_append, scaleAfter_append, scaleAfter_append, scaleAfter_append,
    scaleAfter_append,
    scaleAfter_of_no_scale_writes _ (limbWrites_no_scale sn cs rig s),
    scaleAfter_of_no_scale_writes _ (jawWrites_no_scale sn cs rig s),
    scaleAfter_of_no_scale_writes _ (headWrites_no_scale sn cs rig s),
    scaleAfter_of_no_scale_writes _ (spineWrites_no_scale sn cs rig s),
    scaleAfter_of_no_scale_writes _ (rootWrites_no_scale sn cs rig s)]

/-- C5: the pose applicator never alters bone scale — for every bone of the
rig that has a captured bind pose, the scale after `applyPoseToRig` equals the
bind-pose scale captured at classification time, and every other bone's scale
is left exactly as it was (only positions and rotations are otherwise
written). -/
theorem applyPoseToRig_preserves_scale (sn cs : ℚ → ℚ) (rig : Rig)
    (s : PoseSignals) (st : ℕ → RigRestPose) (i : ℕ) :
    (∀ r, rig.rest.lookup i = some r → i ∈ rig.bones →
      (applyPoseToRig sn cs rig s st i).scale = r.scale) ∧
    (rig.rest.lookup i = none ∨ i ∉ rig.bones →
      (applyPoseToRig sn cs rig s st i).scale = (st i).scale) := by
  rw [applyPoseToRig_scale_key, scaleAfter_resetWrites]
  constructor
  · intro r hr hmem
    rw [hr]
    simp [hmem]
  · intro h
    rcases h with h | h
    · rw [h]
    · cases hr : rig.rest.lookup i with
      | none => rfl
      | some r => simp [h]

theorem applyPoseToRig_preserves_scale_witness :
    (Rig.mk [0] [(0, ⟨⟨0, 0, 0⟩, ⟨0, 0, 0, 1⟩, ⟨1, 2, 3⟩⟩)] [(0, 0)]
        ⟨some 0, some 0, [], none, [], [], [], [], []⟩).rest.lookup 0 =
      some ⟨⟨0, 0, 0⟩, ⟨0, 0, 0, 1⟩, ⟨1, 2, 3⟩⟩ ∧
    0 ∈ (Rig.mk [0] [(0, ⟨⟨0, 0, 0⟩, ⟨0, 0, 0, 1⟩, ⟨1, 2, 3⟩⟩)] [(0, 0)]
        ⟨some 0, some 0, [], none, [], [], [], [], []⟩).bones ∧
    (applyPoseToRig (fun _ => 0) (fun _ => 1)
        (Rig.mk [0] [(0, ⟨⟨0, 0, 0⟩, ⟨0, 0, 0, 1⟩, ⟨1, 2, 3⟩⟩)] [(0, 0)]
          ⟨some 0, some 0, [], none, [], [], [], [], []⟩)
        ⟨0, 0, 0, 0, 0, 0, 0, 0, 0, 0, 0, 0, 0, 0, 0⟩
        (fun _ => ⟨⟨5, 5, 5⟩, ⟨0, 0, 0, 1⟩, ⟨9, 9, 9⟩⟩) 0).scale =
      Vec3.mk 1 2 3 :=
  ⟨rfl, by simp,
    (applyPoseToRig_preserves_scale (fun _ => 0) (fun _ => 1)
        (Rig.mk [0] [(0, ⟨⟨0, 0, 0⟩, ⟨0, 0, 0, 1⟩, ⟨1, 2, 3⟩⟩)] [(0, 0)]
          ⟨some 0, some 0, [], none, [], [], [], [], []⟩)
        ⟨0, 0, 0, 0, 0, 0, 0, 0, 0, 0, 0, 0, 0, 0, 0⟩
        (fun _ => ⟨⟨5, 5, 5⟩, ⟨0, 0, 0, 1⟩, ⟨9, 9, 9⟩⟩) 0).1
      ⟨⟨0, 0, 0⟩, ⟨0, 0, 0, 1⟩, ⟨1, 2, 3⟩⟩ rfl (by simp)⟩

/-- Substring test on character lists, embedding JavaScript
`hay.includes(needle)`. -/
def containsSub (hay needle : List Char) : Bool :=
  hay.tails.any fun t => needle.isPrefixOf t

/-- Embeds `hasKeyword(name, keywords)`: `keywords.some(k => name.includes(k))`
(the name is already lower-cased by the caller). -/
def hasKeyword (name : List Char) (keywords : List String) : Bool :=
  keywords.any fun k => containsSub name k.toList

/-- ASCII lower-casing of a name, embedding `rawName.toLowerCase()` (all bone
names in play are ASCII). -/
def lowerName (rawName : String) : List Char := rawName.data.map Char.toLower

def ARM_KEYWORDS : List String :=
  ["arm", "forearm", "upperarm", "lowerarm", "clav", "shoulder", "hand",
    "wrist", "elbow"]

def LEG_KEYWORDS : List String :=
  ["leg", "thigh", "calf", "shin", "knee", "foot", "ankle", "toe"]

def SPINE_KEYWORDS : List String := ["spine", "chest", "torso", "back", "rib", "waist"]

def HEAD_KEYWORDS : List String := ["head", "neck", "skull", "jaw"]

def JAW_KEYWORDS : List String := ["jaw", "mouth", "lip", "tongue"]

def HIPS_KEYWORDS : List String := ["hips", "pelvis", "hip", "root", "base", "bip"]

/-- Character class `[a-z0-9]` of the side regexes (tested on the lower-cased
name). -/
def isWordChar (c : Char) : Bool :=
  decide ('a' ≤ c ∧ c ≤ 'z') || decide ('0' ≤ c ∧ c ≤ '9')

/-- Existential test for the anchored side regexes
`/(^|[^a-z0-9])(alt1|alt2|...)([^a-z0-9]|$)/`: some alternative occurs at some
position with a non-`[a-z0-9]` character (or the string boundary) on both
sides. -/
def tokenMatch (alts : List String) (name : List Char) : Bool :=
  (List.range (name.length + 1)).any fun i =>
    alts.any fun alt =>
      alt.toList.isPrefixOf (name.drop i) &&
      (i == 0 || !isWordChar (name.getD (i - 1) ' ')) &&
      (i + alt.length == name.length ||
        !isWordChar (name.getD (i + alt.length) ' '))

/-- Alternatives of `LEFT_REGEX`. -/
def LEFT_TOKENS : List String := ["left", "l", "lf", "lft"]

/-- Alternatives of `RIGHT_REGEX`. -/
def RIGHT_TOKENS : List String := ["right", "r", "rt", "rgt"]

/-- Character class `[A-Z]` of the bare-prefix side heuristic. -/
def isUpperAZ (c : Char) : Bool := decide ('A' ≤ c ∧ c ≤ 'Z')

/-- Character class `[0-9]` of the bare-prefix side heuristic. -/
def isDigit09 (c : Char) : Bool := decide ('0' ≤ c ∧ c ≤ '9')

/-- Test for the anchored two-character regexes `/^[lL]X/` and `/^[rR]X/` on
the raw (not lower-cased) name. -/
def headPair (lo hi : Char) (secondOk : Char → Bool) (s : List Char) : Bool :=
  match s with
  | c0 :: c1 :: _ => (c0 == lo || c0 == hi) && secondOk c1
  | _ => false

/-- Side classification produced by `detectSide`. -/
inductive Side where
  | left
  | right
deriving DecidableEq, Repr

/-- Embeds `detectSide(rawName, isLimb)`: the full-word side regexes on the
lower-cased name, then the bare `l`/`r` prefix heuristics (uppercase, then
digit second character) on the raw name, limb bones only. -/
def detectSide (rawName : String) (isLimb : Bool) : Option Side :=
  let name := lowerName rawName
  if tokenMatch LEFT_TOKENS name then some .left
  else if tokenMatch RIGHT_TOKENS name then some .right
  else if isLimb && headPair 'l' 'L' isUpperAZ rawName.data then some .left
  else if isLimb && headPair 'r' 'R' isUpperAZ rawName.data then some .right
  else if isLimb && headPair 'l' 'L' isDigit09 rawName.data then some .left
  else if isLimb && headPair 'r' 'R' isDigit09 rawName.data then some .right
  else none

/-- Stable insertion into a sorted list: the new element goes after every
existing element `y` with `le y x`, so ties keep their existing order. -/
def insertSorted (le : α → α → Bool) (x : α) : List α → List α
  | [] => [x]
  | y :: ys => if le y x then y :: insertSorted le x ys else x :: y :: ys

/-- Stable sort, modelling JavaScript `Array.prototype.sort` (stable per
ES2019) with comparator `cmp`; `le a b` stands for `cmp(a, b) <= 0`. -/
def stableSort (le : α → α → Bool) (l : List α) : List α :=
  l.foldl (fun acc x => insertSorted le x acc) []

/-- Embeds `Array.from(new Set(group))`: keeps the first occurrence of each
element, in order. -/
def dedupeAux (seen : List ℕ) : List ℕ → List ℕ
  | [] => []
  | x :: xs =>
    if x ∈ seen then dedupeAux seen xs else x :: dedupeAux (x :: seen) xs

/-- First-occurrence deduplication (see `dedupeAux`). -/
def dedupe (l : List ℕ) : List ℕ := dedupeAux [] l

/-- Snapshot of one `THREE.Bone` as the classifier sees it: its uuid (as
`ℕ`), name, the parent bone's uuid when the scene parent is itself a bone,
the local (bind) transform, and the world position that
`bone.getWorldPosition` reports after `model.updateWorldMatrix(true, true)`
(world positions depend on the whole loaded scene graph, so they are input
data of the embedding). -/
structure SrcBone where
  id : ℕ
  name : String
  parent : Option ℕ
  rest : RigRestPose
  world : Vec3
deriving DecidableEq, Repr

/-- Parent-bone lookup used by `getBoneDepth`. -/
def parentOf (bones : List SrcBone) (id : ℕ) : Option ℕ :=
  match bones.find? fun b => b.id == id with
  | none => none
  | some b => b.parent

/-- Embeds `getBoneDepth(bone)`: the number of consecutive bone ancestors.
The source walks the parent chain of a finite scene tree; the fuel argument
(instantiated with the bone count) bounds that walk. -/
def getBoneDepth (bones : List SrcBone) : ℕ → ℕ → ℕ
  | 0, _ => 0
  | fuel + 1, id =>
    match parentOf bones id with
    | none => 0
    | some p => getBoneDepth bones fuel p + 1

/-- Body of the name-based classification pass of `buildRig`
(`bones.forEach(...)`): keyword tests, side detection, and group insertion
(singleton `hips` / `head` are first-match-wins; chain groups accumulate). -/
def classifyBone (g : RigGroups) (b : SrcBone) : RigGroups :=
  let rawName := b.name
  let name := lowerName rawName
  let isArm := hasKeyword name ARM_KEYWORDS
  let isLeg := hasKeyword name LEG_KEYWORDS
  let isSpine := hasKeyword name SPINE_KEYWORDS
  let isHead := hasKeyword name HEAD_KEYWORDS
  let isJaw := hasKeyword name JAW_KEYWORDS
  let isHips := hasKeyword name HIPS_KEYWORDS
  let side := detectSide rawName (isArm || isLeg)
  let g := if isHips && g.hips.isNone then { g with hips := some b.id } else g
  let g := if isSpine then { g with spine := g.spine ++ [b.id] } else g
  let g := if isHead && g.head.isNone then { g with head := some b.id } else g
  let g := if isJaw then { g with jaw := g.jaw ++ [b.id] } else g
  let g :=
    if isArm then
      match side with
      | some .left => { g with armL := g.armL ++ [b.id] }
      | some .right => { g with armR := g.armR ++ [b.id] }
      | none => g
    else g
  let g :=
    if isLeg then
      match side with
      | some .left => { g with legL := g.legL ++ [b.id] }
      | some .right => { g with legR := g.legR ++ [b.id] }
      | none => g
    else g
  g

/-- Hips fallback of `buildRig`: `if (!groups.hips) groups.hips = root;`. -/
def fallbackHips (g : RigGroups) (rootId : Option ℕ) : RigGroups :=
  if g.hips.isNone then { g with hips := rootId } else g

/-- Head fallback of `buildRig`: highest-world-`y` bone when no name matched. -/
def fallbackHead (g : RigGroups) (cand : Option ℕ) : RigGroups :=
  if g.head.isNone then { g with head := cand } else g

/-- Spine fallback of `buildRig`: centerline bones between root and head
height, else the 2nd…5th shallowest bones. -/
def fallbackSpine (g : RigGroups) (cands altChain : List ℕ) : RigGroups :=
  if g.spine.isEmpty then
    { g with spine := if cands.length > 0 then cands else altChain }
  else g

/-- Limb fallbacks of `buildRig`: each side bucket left empty by names is
filled with the geometric candidates for that quadrant. -/
def fallbackLimbs (g : RigGroups) (armLc armRc legLc legRc : List ℕ) :
    RigGroups :=
  let g := if g.armL.isEmpty then { g with armL := armLc } else g
  let g := if g.armR.isEmpty then { g with armR := armRc } else g
  let g := if g.legL.isEmpty then { g with legL := legLc } else g
  let g := if g.legR.isEmpty then { g with legR := legRc } else g
  g

/-- Final normalization of `buildRig`: `sortByDepth(dedupe(group)).slice(0,n)`
applied to every chain group with the source's caps (spine 5, limbs 4,
jaw 3). -/
def capGroups (depthOf : ℕ → ℕ) (g : RigGroups) : RigGroups :=
  let capSort := fun (l : List ℕ) (n : ℕ) =>
    (stableSort (fun a b => decide (depthOf a ≤ depthOf b)) (dedupe l)).take n
  { g with
    spine := capSort g.spine 5
    armL := capSort g.armL 4
    armR := capSort g.armR 4
    legL := capSort g.legL 4
    legR := capSort g.legR 4
    jaw := capSort g.jaw 3 }

/-- Body of `buildRig(model)` past its zero-bone guard (see `buildRig`). -/
def buildRigCore (bones : List SrcBone) : Rig :=
    let rest : List (ℕ × RigRestPose) := bones.map fun b => (b.id, b.rest)
    let depthList : List (ℕ × ℕ) :=
      bones.map fun b => (b.id, getBoneDepth bones bones.length b.id)
    let depthOf : ℕ → ℕ := fun id => (depthList.lookup id).getD 0
    let worldOf : ℕ → Vec3 := fun id =>
      (((bones.find? fun b => b.id == id).map fun b => b.world).getD ⟨0, 0, 0⟩)
    let bonesByDepth :=
      stableSort (fun a b => decide (depthOf a.id ≤ depthOf b.id)) bones
    let root := bonesByDepth.head?
    let g : RigGroups :=
      { root := root.map fun b => b.id, hips := none, spine := [], head := none,
        jaw := [], armL := [], armR := [], legL := [], legR := [] }
    let g := bones.foldl classifyBone g
    let rootY : ℚ := match root with | some r => (worldOf r.id).y | none => 0
    let g := fallbackHips g (root.map fun b => b.id)
    let g := fallbackHead g
      ((stableSort (fun a b => decide ((worldOf b.id).y ≤ (worldOf a.id).y))
          bones).head?.map fun b => b.id)
    let headY : ℚ :=
      match g.head with | some h => (worldOf h).y | none => rootY + 1
    let midY := (rootY + headY) * 0.5
    let g := fallbackSpine g
      ((bones.filter fun b =>
          decide (|(worldOf b.id).x| < 0.2) && decide (rootY < (worldOf b.id).y)
            && decide ((worldOf b.id).y < headY)).map fun b => b.id)
      (((bonesByDepth.drop 1).take (min 5 bonesByDepth.length - 1)).map
        fun b => b.id)
    let leftBones := bones.filter fun b => decide ((worldOf b.id).x ≤ 0)
    let rightBones := bones.filter fun b => decide (0 ≤ (worldOf b.id).x)
    let g := fallbackLimbs g
      (((stableSort (fun a b => decide ((worldOf b.id).y ≤ (worldOf a.id).y))
          (leftBones.filter fun b => decide (midY ≤ (worldOf b.id).y))).take
        4).map fun b => b.id)
      (((stableSort (fun a b => decide ((worldOf b.id).y ≤ (worldOf a.id).y))
          (rightBones.filter fun b => decide (midY ≤ (worldOf b.id).y))).take
        4).map fun b => b.id)
      (((stableSort (fun a b => decide ((worldOf a.id).y ≤ (worldOf b.id).y))
          (leftBones.filter fun b => decide ((worldOf b.id).y < midY))).take
        4).map fun b => b.id)
      (((stableSort (fun a b => decide ((worldOf a.id).y ≤ (worldOf b.id).y))
          (rightBones.filter fun b => decide ((worldOf b.id).y < midY))).take
        4).map fun b => b.id)
    { bones := bones.map fun b => b.id
      rest := rest
      depth := depthList
      groups := capGroups depthOf g }

/-- Embeds `buildRig(model)`.  The input is the list of bones that
`model.traverse` collects, in traversal order, each carrying its name, parent
bone, bind transform and world position (see `SrcBone`).  Returns `none`
exactly on the source's `bones.length === 0` guard. -/
def buildRig (bones : List SrcBone) : Option Rig :=
  if bones.length == 0 then none else some (buildRigCore bones)

theorem length_insertSorted (le : α → α → Bool) (x : α) :
    ∀ l : List α, (insertSorted le x l).length = l.length + 1 := by
  intro l
  induction l with
  | nil => rfl
  | cons y ys ih =>
    simp only [insertSorted]
    split
    · simp [ih]
    · simp

theorem length_stableSort (le : α → α → Bool) (l : List α) :
    (stableSort le l).length = l.length := by
  suffices h : ∀ (l : List α) (acc : List α),
      (List.foldl (fun acc x => insertSorted le x acc) acc l).length =
        acc.length + l.length by
    simpa using h l []
  intro l
  induction l with
  | nil => intro acc; simp
  | cons x xs ih =>
    intro acc
    simp only [List.foldl_cons, ih, length_insertSorted, List.length_cons]
    omega

theorem stableSort_head?_map_isSome (le : α → α → Bool) (l : List α)
    (f : α → β) (h : l ≠ []) : ((stableSort le l).head?.map f).isSome := by
  cases hs : stableSort le l with
  | nil =>
    exfalso
    have hl := length_stableSort le l
    rw [hs] at hl
    exact h (List.length_eq_zero.mp hl.symm)
  | cons a as => rfl

theorem capGroups_hips (d : ℕ → ℕ) (g : RigGroups) :
    (capGroups d g).hips = g.hips := rfl

theorem capGroups_head (d : ℕ → ℕ) (g : RigGroups) :
    (capGroups d g).head = g.head := rfl

theorem fallbackLimbs_hips (g : RigGroups) (a b c d : List ℕ) :
    (fallbackLimbs g a b c d).hips = g.hips := by
  simp only [fallbackLimbs]
  repeat' split
  all_goals rfl

theorem fallbackLimbs_head (g : RigGroups) (a b c d : List ℕ) :
    (fallbackLimbs g a b c d).head = g.head := by
  simp only [fallbackLimbs]
  repeat' split
  all_goals rfl

theorem fallbackSpine_hips (g : RigGroups) (c alt : List ℕ) :
    (fallbackSpine g c alt).hips = g.hips := by
  simp only [fallbackSpine]
  repeat' split
  all_goals rfl

theorem fallbackSpine_head (g : RigGroups) (c alt : List ℕ) :
    (fallbackSpine g c alt).head = g.head := by
  simp only [fallbackSpine]
  repeat' split
  all_goals rfl

theorem fallbackHead_hips (g : RigGroups) (c : Option ℕ) :
    (fallbackHead g c).hips = g.hips := by
  simp only [fallbackHead]
  repeat' split
  all_goals rfl

theorem fallbackHips_isSome (g : RigGroups) (r : Option ℕ)
    (h : r.isSome) : (fallbackHips g r).hips.isSome := by
  unfold fallbackHips
  split
  · exact h
  · rename_i hg
    cases hh : g.hips with
    | none => rw [hh] at hg; simp at hg
    | some x => simp [hh]

theorem fallbackHead_isSome (g : RigGroups) (c : Option ℕ)
    (h : c.isSome) : (fallbackHead g c).head.isSome := by
  unfold fallbackHead
  split
  · exact h
  · rename_i hg
    cases hh : g.head with
    | none => rw [hh] at hg; simp at hg
    | some x => simp [hh]

/-- C2: `buildRig` returns `null` exactly when the traversed bone list is
empty, and on every skeleton with at least one bone it returns a rig whose
`hips` and `head` are both non-null (the name pass or, failing it, the
root-bone and highest-bone fallbacks fill them). -/
theorem buildRig_guarantees_hips_head (bones : List SrcBone) :
    (buildRig bones = none ↔ bones = []) ∧
    (bones ≠ [] → ∃ rig, buildRig bones = some rig ∧
      rig.groups.hips.isSome ∧ rig.groups.head.isSome) := by
  constructor
  · cases bones with
    | nil => simp [buildRig]
    | cons b bs => simp [buildRig]
  · intro h
    have hlen : (bones.length == 0) = false := by
      cases bones with
      | nil => exact absurd rfl h
      | cons b bs => rfl
    refine ⟨buildRigCore bones, by rw [buildRig, hlen]; rfl, ?_, ?_⟩
    · show (buildRigCore bones).groups.hips.isSome
      simp only [buildRigCore]
      rw [capGroups_hips, fallbackLimbs_hips, fallbackSpine_hips,
        fallbackHead_hips]
      apply fallbackHips_isSome
      exact stableSort_head?_map_isSome _ bones _ h
    · show (buildRigCore bones).groups.head.isSome
      simp only [buildRigCore]
      rw [capGroups_head, fallbackLimbs_head, fallbackSpine_head]
      apply fallbackHead_isSome
      exact stableSort_head?_map_isSome _ bones _ h

theorem buildRig_guarantees_hips_head_witness :
    ([(⟨0, "x", none, ⟨⟨0, 0, 0⟩, ⟨0, 0, 0, 1⟩, ⟨1, 1, 1⟩⟩, ⟨0, 0, 0⟩⟩ :
        SrcBone)] ≠ ([] : List SrcBone)) ∧
    ∃ rig,
      buildRig [⟨0, "x", none, ⟨⟨0, 0, 0⟩, ⟨0, 0, 0, 1⟩, ⟨1, 1, 1⟩⟩, ⟨0, 0, 0⟩⟩] =
        some rig ∧ rig.groups.hips.isSome ∧ rig.groups.head.isSome :=
  ⟨by simp, (buildRig_guarantees_hips_head _).2 (by simp)⟩

/-- Shared bind transform of the concrete classifier scenarios. -/
def bindDefault : RigRestPose := ⟨⟨0, 0, 0⟩, ⟨0, 0, 0, 1⟩, ⟨1, 1, 1⟩⟩

/-- Bone shorthand for the concrete classifier scenarios. -/
def mkBone (id : ℕ) (nm : String) (p : Option ℕ) (w : Vec3) : SrcBone :=
  ⟨id, nm, p, bindDefault, w⟩

/-- A 20-bone skeleton carrying exactly the names of spec Scenario 1, with
every bone's world position on the positive-`x` side.  Since
"LeftUpArm" / "RightUpArm" / "LeftLeg" / "RightLeg" give `detectSide` no
match (the full-word regex needs a token boundary after the side word, and
the bare-prefix heuristic needs an uppercase letter or digit right after the
leading `l` / `r`), the side buckets fall through to the world-`x` geometric
fallback. -/
def namedSkeletonAllRight : List SrcBone :=
  [mkBone 0 "Hips" none ⟨1, 1, 0⟩,
   mkBone 1 "Spine1" (some 0) ⟨1, 6 / 5, 0⟩,
   mkBone 2 "Head" (some 1) ⟨1, 2, 0⟩,
   mkBone 3 "LeftUpArm" (some 1) ⟨1, 9 / 5, 0⟩,
   mkBone 4 "RightUpArm" (some 1) ⟨1, 9 / 5, 0⟩,
   mkBone 5 "LeftLeg" (some 0) ⟨1, 1 / 2, 0⟩,
   mkBone 6 "RightLeg" (some 0) ⟨1, 1 / 2, 0⟩,
   mkBone 7 "b7" (some 0) ⟨1, 7 / 5, 0⟩,
   mkBone 8 "b8" (some 0) ⟨1, 7 / 5, 0⟩,
   mkBone 9 "b9" (some 0) ⟨1, 7 / 5, 0⟩,
   mkBone 10 "b10" (some 0) ⟨1, 7 / 5, 0⟩,
   mkBone 11 "b11" (some 0) ⟨1, 7 / 5, 0⟩,
   mkBone 12 "b12" (some 0) ⟨1, 7 / 5, 0⟩,
   mkBone 13 "b13" (some 0) ⟨1, 7 / 5, 0⟩,
   mkBone 14 "b14" (some 0) ⟨1, 7 / 5, 0⟩,
   mkBone 15 "b15" (some 0) ⟨1, 7 / 5, 0⟩,
   mkBone 16 "b16" (some 0) ⟨1, 7 / 5, 0⟩,
   mkBone 17 "b17" (some 0) ⟨1, 7 / 5, 0⟩,
   mkBone 18 "b18" (some 0) ⟨1, 7 / 5, 0⟩,
   mkBone 19 "b19" (some 0) ⟨1, 7 / 5, 0⟩]

/-- The same 20 names with natural humanoid geometry: left-named bones at
`x ≤ 0`, arms above mid-height, legs below, fillers on the right side below
mid-height. -/
def namedSkeletonNatural : List SrcBone :=
  [mkBone 0 "Hips" none ⟨0, 1, 0⟩,
   mkBone 1 "Spine1" (some 0) ⟨0, 6 / 5, 0⟩,
   mkBone 2 "Head" (some 1) ⟨0, 2, 0⟩,
   mkBone 3 "LeftUpArm" (some 1) ⟨-1 / 2, 9 / 5, 0⟩,
   mkBone 4 "RightUpArm" (some 1) ⟨1 / 2, 9 / 5, 0⟩,
   mkBone 5 "LeftLeg" (some 0) ⟨-3 / 10, 1 / 2, 0⟩,
   mkBone 6 "RightLeg" (some 0) ⟨3 / 10, 1 / 2, 0⟩,
   mkBone 7 "b7" (some 0) ⟨2, 7 / 5, 0⟩,
   mkBone 8 "b8" (some 0) ⟨2, 7 / 5, 0⟩,
   mkBone 9 "b9" (some 0) ⟨2, 7 / 5, 0⟩,
   mkBone 10 "b10" (some 0) ⟨2, 7 / 5, 0⟩,
   mkBone 11 "b11" (some 0) ⟨2, 7 / 5, 0⟩,
   mkBone 12 "b12" (some 0) ⟨2, 7 / 5, 0⟩,
   mkBone 13 "b13" (some 0) ⟨2, 7 / 5, 0⟩,
   mkBone 14 "b14" (some 0) ⟨2, 7 / 5, 0⟩,
   mkBone 15 "b15" (some 0) ⟨2, 7 / 5, 0⟩,
   mkBone 16 "b16" (some 0) ⟨2, 7 / 5, 0⟩,
   mkBone 17 "b17" (some 0) ⟨2, 7 / 5, 0⟩,
   mkBone 18 "b18" (some 0) ⟨2, 7 / 5, 0⟩,
   mkBone 19 "b19" (some 0) ⟨2, 7 / 5, 0⟩]

unseal Rat.mul Rat.ofScientific Rat.inv Rat.add Rat.sub in
/-- C7 counterexample: on a 20-bone skeleton whose bones carry exactly the
claimed standard English names, the classifier leaves `armL` and `legL`
empty (refuting non-emptiness) and puts bone 5, named "LeftLeg", into
`legR` (refuting correct side assignment): the side of these names is never
detected, and the geometric fallback sorts purely by world position. -/
theorem classifier_sideNames_counterexample :
    ((buildRig namedSkeletonAllRight).map fun r =>
        (r.groups.armL, r.groups.legL, r.groups.legR)) =
      some ([], [], [0, 5, 6, 1]) := by decide

unseal Rat.mul Rat.ofScientific Rat.inv Rat.add Rat.sub in
/-- C7 amended: on a 20-bone skeleton with the claimed names the classifier
does place exactly one bone in `hips` (the name-matched "Hips") and one in
`head` (the name-matched "Head"), but the four limb arrays are filled by the
world-space geometric fallback, not by name: when the left-named bones sit at
`x ≤ 0` with arms above and legs below mid-height, each limb array is
non-empty and contains the same-side named limb bone (and not the
opposite-side one), alongside whatever other bones share that quadrant. -/
theorem classifier_namedSkeleton_geometric_fallback :
    ((buildRig namedSkeletonNatural).map fun r => r.groups.hips) =
        some (some 0) ∧
    ((buildRig namedSkeletonNatural).map fun r => r.groups.head) =
        some (some 2) ∧
    ((buildRig namedSkeletonNatural).map fun r => r.groups.armL) =
        some [2, 3] ∧
    ((buildRig namedSkeletonNatural).map fun r => r.groups.armR) =
        some [2, 4] ∧
    ((buildRig namedSkeletonNatural).map fun r => r.groups.legL) =
        some [0, 5, 1] ∧
    ((buildRig namedSkeletonNatural).map fun r => r.groups.legR) =
        some [0, 6, 1, 7] := by
  refine ⟨by decide, by decide, by decide, by decide, by decide, by decide⟩

/-- Component-wise `THREE.Vector3.add`. -/
def vadd (a b : Vec3) : Vec3 := ⟨a.x + b.x, a.y + b.y, a.z + b.z⟩

/-- Component-wise `THREE.Vector3.sub`. -/
def vsub (a b : Vec3) : Vec3 := ⟨a.x - b.x, a.y - b.y, a.z - b.z⟩

/-- Snapshot of one bone of the loaded model for the weapon-attachment pass. -/
structure SceneBone where
  id : ℕ
  name : String
deriving DecidableEq, Repr

/-- Snapshot of one mesh of the loaded model for the weapon-attachment pass. -/
structure SceneMesh where
  id : ℕ
  name : String
deriving DecidableEq, Repr

/-- Embeds the `WeaponAttachment` record.  Objects are referred to by id;
`parent = none` stands for the model object itself. -/
structure WeaponAttachment where
  heroKey : String
  handBone : ℕ
  weaponBone : Option ℕ := none
  weaponMesh : Option ℕ := none
  parent : Option ℕ := none
  meshCenter : Option Vec3 := none
  offset : Option Vec3 := none
deriving DecidableEq, Repr

/-- Embeds one entry of `HERO_WEAPON_ALIGNMENT`. -/
structure WeaponConfig where
  weaponBones : Option (List String)
  handBones : List String
  meshHints : List String
deriving DecidableEq, Repr

/-- Embeds the `HERO_WEAPON_ALIGNMENT` table (its single entry is
`monkey_king`). -/
def HERO_WEAPON_ALIGNMENT (heroKey : String) : Option WeaponConfig :=
  if heroKey == "monkey_king" then
    some { weaponBones := some ["weapon_base", "weapon"]
           handBones := ["wrist_r", "hand_r"]
           meshHints := ["weapon", "staff", "jingu", "bang"] }
  else none

/-- Snapshot of the loaded model for the weapon-attachment pass: bones and
meshes in traversal order; the scene-graph data the source reads through
three.js (world positions of bones, each object's `worldToLocal` conversion,
parents, local positions, geometry bounding-box centers — an empty geometry
yields the origin, as `Box3.getCenter` does on an empty box); and the
`userData` state the source stores on the model and on meshes. -/
structure SceneModel where
  bones : List SceneBone
  meshes : List SceneMesh
  boneParent : ℕ → Option ℕ
  meshParent : ℕ → Option ℕ
  worldPos : ℕ → Vec3
  toLocal : Option ℕ → Vec3 → Vec3
  bonePos : ℕ → Vec3
  meshPos : ℕ → Vec3
  meshBBoxCenter : ℕ → Vec3
  weaponAligned : Bool
  weaponAttachment : Option WeaponAttachment
  meshAligned : ℕ → Bool

/-- Embeds `findBoneByNames(model, names)`: the first traversed bone whose
lower-cased name equals one of the lower-cased candidates. -/
def findBoneByNames (model : SceneModel) (names : List String) : Option ℕ :=
  let normalized := names.map fun n => lowerName n
  (model.bones.find? fun b =>
      normalized.any fun c => c == lowerName b.name).map fun b => b.id

/-- Embeds `findMeshByHints(model, hints)`: the first traversed mesh whose
lower-cased name contains one of the lower-cased hints. -/
def findMeshByHints (model : SceneModel) (hints : List String) : Option ℕ :=
  let normalized := hints.map fun h => lowerName h
  (model.meshes.find? fun m =>
      normalized.any fun h => containsSub (lowerName m.name) h).map fun m => m.id

/-- Resolution of the weapon bone in `alignHeroWeapon`:
`config.weaponBones ? findBoneByNames(model, config.weaponBones) : null`. -/
def resolveWeaponBone (model : SceneModel) (config : WeaponConfig) : Option ℕ :=
  match config.weaponBones with
  | some wnames => findBoneByNames model wnames
  | none => none

/-- Embeds `alignHeroWeapon(model, heroKey)` as a function from the model
snapshot to the updated snapshot: it may reposition the weapon bone or mesh
and record the `weaponAligned` flag and the created `WeaponAttachment` in
`userData`. -/
def alignHeroWeapon (model : SceneModel) (heroKey : Option String) :
    SceneModel :=
  match heroKey with
  | none => model
  | some key =>
    match HERO_WEAPON_ALIGNMENT key with
    | none => model
    | some config =>
      if model.weaponAligned || model.weaponAttachment.isSome then model
      else
        match findBoneByNames model config.handBones with
        | none => model
        | some handBone =>
          let handPosition := model.worldPos handBone
          match resolveWeaponBone model config with
          | some wb =>
            match model.boneParent wb with
            | some parent =>
              let localHand := model.toLocal (some parent) handPosition
              let localWeapon := model.toLocal (some parent) (model.worldPos wb)
              { model with
                bonePos := fun j =>
                  if j = wb then
                    vadd (model.bonePos wb) (vsub localHand localWeapon)
                  else model.bonePos j
                weaponAttachment := some
                  { heroKey := key, handBone := handBone, weaponBone := some wb,
                    parent := some parent, offset := some ⟨0, 0, 0⟩ }
                weaponAligned := true }
            | none =>
              { model with
                bonePos := fun j =>
                  if j = wb then
                    vadd (model.bonePos wb)
                      (vsub handPosition (model.worldPos wb))
                  else model.bonePos j
                weaponAttachment := some
                  { heroKey := key, handBone := handBone, weaponBone := some wb,
                    parent := none, offset := some ⟨0, 0, 0⟩ }
                weaponAligned := true }
          | none =>
            match findMeshByHints model config.meshHints with
            | none => model
            | some wm =>
              if model.meshAligned wm then model
              else
                let meshCenter := model.meshBBoxCenter wm
                let parent := model.meshParent wm
                let localHand := model.toLocal parent handPosition
                { model with
                  meshPos := fun j =>
                    if j = wm then vsub localHand meshCenter else model.meshPos j
                  meshAligned := fun j =>
                    if j = wm then true else model.meshAligned j
                  weaponAligned := true
                  weaponAttachment := some
                    { heroKey := key, handBone := handBone, weaponMesh := some wm,
                      parent := parent, meshCenter := some meshCenter } }

/-- Embeds `updateHeroWeaponAttachment(model, heroKey)`: the per-frame
re-synchronization of the attached weapon to the hand's world position. -/
def updateHeroWeaponAttachment (model : SceneModel) (heroKey : Option String) :
    SceneModel :=
  match heroKey with
  | none => model
  | some key =>
    match model.weaponAttachment with
    | none => model
    | some att =>
      if att.heroKey == key then
        let handPosition := model.worldPos att.handBone
        let localHand := model.toLocal att.parent handPosition
        match att.weaponBone with
        | some wb =>
          let offset := att.offset.getD ⟨0, 0, 0⟩
          { model with
            bonePos := fun j =>
              if j = wb then vadd localHand offset else model.bonePos j }
        | none =>
          match att.weaponMesh, att.meshCenter with
          | some wm, some c =>
            { model with
              meshPos := fun j =>
                if j = wm then vsub localHand c else model.meshPos j }
          | _, _ => model
      else model

/-- C8: `alignHeroWeapon` creates a weapon attachment only when a configured
hand bone is found by name together with either a configured weapon bone (by
name) or a hint-matched weapon mesh, and every created attachment populates
exactly one of `weaponBone` / `weaponMesh`; when the hand bone is missing, or
neither weapon bone nor weapon mesh is found, the model is returned untouched;
and with no attachment recorded, the per-frame `updateHeroWeaponAttachment` is
the identity on the model (the embedding is a total function: no case
throws). -/
theorem weaponAttachment_creation (model : SceneModel)
    (heroKey : Option String) :
    (∀ a, model.weaponAttachment = none →
      (alignHeroWeapon model heroKey).weaponAttachment = some a →
      ∃ key config, heroKey = some key ∧
        HERO_WEAPON_ALIGNMENT key = some config ∧
        findBoneByNames model config.handBones = some a.handBone ∧
        ((∃ wb, a.weaponBone = some wb ∧ a.weaponMesh = none ∧
            resolveWeaponBone model config = some wb) ∨
          (a.weaponBone = none ∧ ∃ wm, a.weaponMesh = some wm ∧
            findMeshByHints model config.meshHints = some wm))) ∧
    (∀ key config, heroKey = some key →
      HERO_WEAPON_ALIGNMENT key = some config →
      findBoneByNames model config.handBones = none →
      alignHeroWeapon model heroKey = model) ∧
    (∀ key config, heroKey = some key →
      HERO_WEAPON_ALIGNMENT key = some config →
      resolveWeaponBone model config = none →
      findMeshByHints model config.meshHints = none →
      alignHeroWeapon model heroKey = model) ∧
    (model.weaponAttachment = none →
      updateHeroWeaponAttachment model heroKey = model) := by
  refine ⟨?_, ?_, ?_, ?_⟩
  · intro a h0 h1
    unfold alignHeroWeapon at h1
    split at h1
    · rw [h0] at h1; cases h1
    · rename_i key
      split at h1
      · rw [h0] at h1; cases h1
      · rename_i config hcfg
        split at h1
        · rw [h0] at h1; cases h1
        · split at h1
          · rw [h0] at h1; cases h1
          · rename_i handBone hhand
            split at h1
            · rename_i wb hwb
              split at h1
              · rename_i parent hpar
                simp only [Option.some.injEq] at h1
                subst h1
                exact ⟨key, config, rfl, hcfg, hhand,
                  Or.inl ⟨wb, rfl, rfl, hwb⟩⟩
              · simp only [Option.some.injEq] at h1
                subst h1
                exact ⟨key, config, rfl, hcfg, hhand,
                  Or.inl ⟨wb, rfl, rfl, hwb⟩⟩
            · rename_i hwb
              split at h1
              · rw [h0] at h1; cases h1
              · rename_i wm hmesh
                split at h1
                · rw [h0] at h1; cases h1
                · simp only [Option.some.injEq] at h1
                  subst h1
                  exact ⟨key, config, rfl, hcfg, hhand,
                    Or.inr ⟨rfl, wm, rfl, hmesh⟩⟩
  · intro key config hk hcfg hhand
    subst hk
    unfold alignHeroWeapon
    simp only [hcfg, hhand]
    split <;> rfl
  · intro key config hk hcfg hwb hmesh
    subst hk
    unfold alignHeroWeapon
    simp only [hcfg, hwb, hmesh]
    split
    · rfl
    · split <;> rfl
  · intro h0
    unfold updateHeroWeaponAttachment
    cases heroKey with
    | none => rfl
    | some key => simp only [h0]

/-- Concrete scene for the weapon-attachment witness: a `monkey_king` model
exposing a `wrist_r` hand bone and a `weapon_base` weapon bone. -/
def weaponScene : SceneModel where
  bones := [⟨0, "wrist_r"⟩, ⟨1, "weapon_base"⟩]
  meshes := []
  boneParent := fun _ => none
  meshParent := fun _ => none
  worldPos := fun j => if j = 0 then ⟨1, 2, 3⟩ else ⟨0, 0, 0⟩
  toLocal := fun _ v => v
  bonePos := fun _ => ⟨0, 0, 0⟩
  meshPos := fun _ => ⟨0, 0, 0⟩
  meshBBoxCenter := fun _ => ⟨0, 0, 0⟩
  weaponAligned := false
  weaponAttachment := none
  meshAligned := fun _ => false

theorem weaponAttachment_creation_witness :
    weaponScene.weaponAttachment = none ∧
    (alignHeroWeapon weaponScene (some "monkey_king")).weaponAttachment =
      some { heroKey := "monkey_king", handBone := 0, weaponBone := some 1,
             parent := none, offset := some ⟨0, 0, 0⟩ } ∧
    (∃ key config, (some "monkey_king" : Option String) = some key ∧
        HERO_WEAPON_ALIGNMENT key = some config ∧
        findBoneByNames weaponScene config.handBones = some 0) ∧
    updateHeroWeaponAttachment weaponScene (some "monkey_king") =
      weaponScene := by
  refine ⟨rfl, rfl, ?_,
    (weaponAttachment_creation weaponScene (some "monkey_king")).2.2.2 rfl⟩
  obtain ⟨key, config, hk, hcfg, hhand, h⟩ :=
    (weaponAttachment_creation weaponScene (some "monkey_king")).1
      { heroKey := "monkey_king", handBone := 0, weaponBone := some 1,
        parent := none, offset := some ⟨0, 0, 0⟩ } rfl rfl
  exact ⟨key, config, hk, hcfg, hhand⟩

/-- State carried across `renderLoop` invocations that matters for pose
timing: the throttle bookkeeping `lastRenderTime` (milliseconds), the
`THREE.Clock` instant last consumed by `clock.getDelta()` (milliseconds), the
pose state, and the `poseAppliedRef` flag. -/
structure LoopState where
  lastRenderTime : ℚ
  clockMs : ℚ
  pose : PoseState
  poseApplied : Bool
deriving DecidableEq, Repr

/-- Embeds one invocation of `renderLoop(time)` at the rAF timestamp `tMs`
(milliseconds) on the pose path: no clip action is active, `controls.update()`
reports no change, and a rig is loaded.  `clock.getDelta()` is modelled as
`(tMs - clockMs) / 1000` seconds — the rAF timestamp and the clock read the
same wall clock — and, as in the source, it is consumed before the
frame-rate throttle's early return. -/
def renderLoopStep (idleFps speed : ℚ) (autoplay : Bool) (s : LoopState)
    (tMs : ℚ) : LoopState :=
  let delta := (tMs - s.clockMs) / 1000
  let s1 := { s with clockMs := tMs }
  let poseAnimating := autoplay || decide (s1.pose.blend < 1)
  let poseNeedsUpdate := poseAnimating || !s1.poseApplied
  let shouldAnimate := poseNeedsUpdate
  let targetFps : ℚ := if shouldAnimate then 60 else idleFps
  if tMs - s1.lastRenderTime < 1000 / targetFps then s1
  else
    let s2 := { s1 with lastRenderTime := tMs }
    if poseNeedsUpdate then
      { s2 with
        pose :=
          if poseAnimating then updatePoseState s2.pose delta speed autoplay
          else s2.pose
        poseApplied := true }
    else s2

unseal Rat.mul Rat.ofScientific Rat.inv Rat.add Rat.sub in
/-- C9 is violated by the code: `clock.getDelta()` is called before the
frame-rate throttle's early return, so the wall-clock delta of a skipped
invocation is consumed and dropped.  With autoplay on, speed 1, and
invocations at rAF timestamps 10 ms and 20 ms (clock and `lastRenderTime`
starting at 0), the 10 ms invocation is skipped (10 < 1000/60) and leaves the
pose time at 0, and the 20 ms invocation advances the pose time by only its
own 10 ms delta: the elapsed time ends at 1/100 s instead of the full
wall-clock 20/1000 · 1 = 1/50 s the claim requires. -/
theorem renderLoop_drops_throttled_delta :
    (renderLoopStep 10 1 true ⟨0, 0, ⟨.idle, .idle, 1, 0⟩, true⟩ 10).pose.time
        = 0 ∧
    (renderLoopStep 10 1 true ⟨0, 0, ⟨.idle, .idle, 1, 0⟩, true⟩
        10).lastRenderTime = 0 ∧
    (renderLoopStep 10 1 true
        (renderLoopStep 10 1 true ⟨0, 0, ⟨.idle, .idle, 1, 0⟩, true⟩ 10)
        20).pose.time = 1 / 100 ∧
    ((1 : ℚ) / 100) ≠ 20 / 1000 * 1 := by
  refine ⟨by decide, by decide, by decide, by decide⟩

end Viewer3D
